import Mathlib

set_option autoImplicit false

/-!
Shallow embedding of the MudPy action layer
(`src/examples/cafecosmos.py` and `src/mud/World.py`) and proofs about it.

External collaborators (web3 chain client, `thefuzz` matcher, keccak) are
modelled as parameters; everything below the parameter boundary is a direct
translation of the Python source.
-/

namespace MudPy

/-! ## Chain interaction model -/

/-- Outcome of sending one transaction through the chain client (`web3` in
the source): success, a `ContractCustomError` carrying ABI error data, or
any other failure carrying a message. -/
inductive ChainResult where
  | success
  | customError (data : String)
  | failure (msg : String)
  deriving DecidableEq

/-- Selector extraction in `_execute_function_call`:
`selector = error_data[2:10]` (first 4 bytes after the `0x` prefix). -/
def error_selector (data : String) : String := (data.drop 2).take 8

/-- Lookup in the selector table `World.errors`, entries
`(selector, contract name, error name)`.  The Python `dict` (later bindings
overwrite earlier ones) is modelled by appending entries and taking the most
recent binding on lookup. -/
def table_lookup (errs : List (String × String × String)) (sel : String) :
    Option (String × String) :=
  (errs.reverse.find? (fun e => e.1 == sel)).map (fun e => e.2)

/-- `_execute_function_call` (src/examples/cafecosmos.py, lines 544-577):
builds, signs and sends one transaction; a `ContractCustomError` is decoded
through the selector table and re-raised with the error name, an unmatched
selector is re-raised with the raw payload, and any other failure is
re-raised as "Transaction failed: ...". -/
def execute_function_call (errs : List (String × String × String))
    (outcome : ChainResult) : Except String Unit :=
  match outcome with
  | .success => .ok ()
  | .customError data =>
      match table_lookup errs (error_selector data) with
      | some info => .error ("Transaction failed with custom error: " ++ info.2)
      | none => .error ("Transaction failed with unknown custom error: " ++ data)
  | .failure msg => .error ("Transaction failed: " ++ msg)

/-! ## Crafting (`Player.craft_item`, `_craft_item`) -/

/-- One `craftRecipe(land_id, item_id)` call descriptor, the single
transaction submitted by `_craft_item`. -/
structure CraftCall where
  landId : Nat
  itemId : Nat
  deriving DecidableEq

/-- The loop of `Player.craft_item`: `for _ in range(quantity):
_craft_item(...)`.  Each iteration submits its own transaction through
`execute_function_call`; `chain i` is the chain's answer to the `i`-th
submission.  Returns the submissions attempted and the final result; an
exception aborts the loop at once. -/
def craft_loop (errs : List (String × String × String))
    (chain : Nat → ChainResult) (landId itemId : Nat) :
    Nat → Nat → List CraftCall × Except String Unit
  | 0, _ => ([], .ok ())
  | q + 1, i =>
      match execute_function_call errs (chain i) with
      | .ok _ =>
          let r := craft_loop errs chain landId itemId q (i + 1)
          (⟨landId, itemId⟩ :: r.1, r.2)
      | .error e => ([⟨landId, itemId⟩], .error e)

/-- `Player.craft_item` (lines 160-169): resolve the item name with
`name_to_id_fuzzy` (its result is passed in as `fuzzy`), then craft
`quantity` times, one transaction per craft. -/
def craft_item (errs : List (String × String × String))
    (chain : Nat → ChainResult) (fuzzy : Except String Nat)
    (landId quantity : Nat) : List CraftCall × Except String Unit :=
  match fuzzy with
  | .error e => ([], .error e)
  | .ok itemId => craft_loop errs chain landId itemId quantity 0

/-! ## Name resolution (`name_to_id_fuzzy`) -/

/-- `name_to_id_fuzzy` (lines 499-517).  `extractOne` is
`thefuzz.process.extractOne` (external library), returning the best match
among the catalog names together with its score; `nameToId` is the
`Name -> ID` dict built from `Items.csv` (last binding wins). -/
def name_to_id_fuzzy (nameToId : List (String × Nat))
    (extractOne : String → List String → String × Nat)
    (name : String) (threshold : Nat) : Except String Nat :=
  let best := extractOne name (nameToId.map (fun p => p.1))
  if threshold ≤ best.2 then
    match (nameToId.reverse.find? (fun p => p.1 == best.1)).map (fun p => p.2) with
    | some id => .ok id
    | none => .error ("KeyError: " ++ best.1)
  else
    .error ("Could not find a match for " ++ name ++ " with a score of "
      ++ toString best.2)

/-! ## Placement (`Player.place_item`, helper `place_item`) -/

/-- One `placeItem(land_id, x, y, item_id)` call descriptor. -/
structure PlaceCall where
  landId : Nat
  x : Int
  y : Int
  itemId : Nat
  deriving DecidableEq

/-- Helper `place_item` (lines 579-587): one `placeItem` transaction through
`execute_function_call`. -/
def place_item (errs : List (String × String × String)) (outcome : ChainResult)
    (landId : Nat) (x y : Int) (itemId : Nat) :
    List PlaceCall × Except String Unit :=
  ([⟨landId, x, y, itemId⟩], execute_function_call errs outcome)

/-- `Player.place_item` (lines 75-89): the name "unlock" maps to item id 0,
any other name goes through `name_to_id_fuzzy`; then one `placeItem`
transaction. -/
def player_place_item (errs : List (String × String × String))
    (outcome : ChainResult) (fuzzy : Except String Nat) (itemName : String)
    (landId : Nat) (x y : Int) : List PlaceCall × Except String Unit :=
  if itemName = "unlock" then place_item errs outcome landId x y 0
  else
    match fuzzy with
    | .error e => ([], .error e)
    | .ok itemId => place_item errs outcome landId x y itemId

/-! ## Land discovery (`find_player_lands`) and `Player.__init__` -/

/-- The loop body of `find_player_lands` (lines 430-441): probe
`ownerOf(i)`, stop on the first probe that raises, collect owned ids, stop
early once `amount_of_lands` ids are collected (when positive).  `fuel` is
the number of loop iterations left, `found` the number of lands already
collected.  Returns `(ids probed, lands found)` from this point on. -/
def find_lands_go (ownerOf : Nat → Except String String) (addr : String)
    (amount : Nat) : Nat → Nat → Nat → List Nat × List Nat
  | 0, _, _ => ([], [])
  | fuel + 1, i, found =>
      match ownerOf i with
      | .error _ => ([i], [])
      | .ok owner =>
          if owner = addr then
            if 0 < amount ∧ amount ≤ found + 1 then ([i], [i])
            else
              let r := find_lands_go ownerOf addr amount fuel (i + 1) (found + 1)
              (i :: r.1, i :: r.2)
          else
            let r := find_lands_go ownerOf addr amount fuel (i + 1) found
            (i :: r.1, r.2)

/-- `find_player_lands`: `for i in range(1, 1000)`, i.e. 999 probes starting
at token id 1.  Returns `(ids probed, lands found)`. -/
def find_player_lands (ownerOf : Nat → Except String String) (addr : String)
    (amount : Nat) : List Nat × List Nat :=
  find_lands_go ownerOf addr amount 999 1 0

/-- Land selection in `Player.__init__` (lines 46-55): with an explicit
`land_id`, one `ownerOf` call checks ownership and a mismatch raises
`ValueError` at once; with no `land_id`,
`find_player_lands(world, addr, 1)` picks the first land found (an empty
result crashes on `land_ids[0]`).  Returns
`(ownership queries made, on-chain mutating submissions made, result)`;
`__init__` performs no transaction submission in the source, only reads. -/
def player_init (ownerOf : Nat → Except String String) (addr : String)
    (landId : Option Nat) : List Nat × List CraftCall × Except String Nat :=
  match landId with
  | some l =>
      match ownerOf l with
      | .error e => ([l], [], .error e)
      | .ok owner =>
          if owner = addr then ([l], [], .ok l)
          else ([l], [], .error "The player does not own the specified land.")
  | none =>
      let r := find_player_lands ownerOf addr 1
      match r.2 with
      | [] => (r.1, [], .error "IndexError: list index out of range")
      | l :: _ => (r.1, [], .ok l)

/-! ## Helper lemmas for the craft loop -/

theorem craft_loop_all_success (errs : List (String × String × String))
    (chain : Nat → ChainResult) (landId itemId : Nat) :
    ∀ q i, (∀ j, i ≤ j → j < i + q → chain j = ChainResult.success) →
      craft_loop errs chain landId itemId q i
        = (List.replicate q ⟨landId, itemId⟩, Except.ok ()) := by
  intro q
  induction q with
  | zero => intro i _; rfl
  | succ n ih =>
      intro i h
      have hi : chain i = ChainResult.success := h i le_rfl (by omega)
      have hrest := ih (i + 1) (fun j hj1 hj2 => h j (by omega) (by omega))
      simp [craft_loop, hi, execute_function_call, hrest, List.replicate_succ]

/-! ## C1: batching / number of submissions per craft -/

/-- C1 counterexample: the claim says crafting a quantity N of an item
results in exactly one network submission.  In the source,
`Player.craft_item` loops and `_craft_item` submits one transaction per
craft: crafting quantity 2 produces 2 submissions, not 1. -/
theorem c1_counterexample :
    ((craft_item [] (fun _ => ChainResult.success) (.ok 7) 1 2).1.length = 2)
      ∧ ¬ ((craft_item [] (fun _ => ChainResult.success) (.ok 7) 1 2).1.length = 1) := by
  constructor <;> decide

/-- C1 (amended): `craft_item` does not batch: each craft is built, signed
and submitted as its own transaction, so crafting a quantity `q` with every
submission accepted results in exactly `q` network submissions, and the
call succeeds. -/
theorem c1_craft_item_one_submission_per_craft
    (errs : List (String × String × String)) (chain : Nat → ChainResult)
    (itemId landId quantity : Nat)
    (hok : ∀ i, i < quantity → chain i = ChainResult.success) :
    craft_item errs chain (.ok itemId) landId quantity
      = (List.replicate quantity ⟨landId, itemId⟩, Except.ok ()) := by
  simpa [craft_item] using
    craft_loop_all_success errs chain landId itemId quantity 0
      (fun j _ hj => hok j (by omega))

/-- Witness for the amended C1 at a concrete input. -/
theorem c1_witness :
    craft_item [] (fun _ => ChainResult.success) (.ok 7) 1 3
      = (List.replicate 3 ⟨1, 7⟩, Except.ok ()) :=
  c1_craft_item_one_submission_per_craft [] (fun _ => ChainResult.success)
    7 1 3 (fun _ _ => rfl)

/-! ## C2: no client-side planning gap -/

/-- Selector table for the C2 scenario: the crafting contract defines an
insufficient-ingredients error with selector `deadbeef`. -/
def c2_errs : List (String × String × String) :=
  [("deadbeef", "CraftingSystem", "NotEnoughIngredients")]

/-- Chain model for the C2 scenario: the inventory holds 1 of input A while
recipe C needs 2, so the contract rejects every craft of C with its custom
error. -/
def c2_chain : Nat → ChainResult :=
  fun _ => ChainResult.customError "0xdeadbeef"

/-- C2 counterexample: the claim says that with insufficient inputs the
craft raises a PlanningGap to the caller with no submission.  In the
source, `craft_item` consults no inventory: the craft is submitted to the
chain (one submission is attempted, not zero) and the error raised is the
decoded contract error, not a client-side planning error. -/
theorem c2_counterexample :
    (craft_item c2_errs c2_chain (.ok 3) 1 1).1.length = 1
      ∧ ¬ ((craft_item c2_errs c2_chain (.ok 3) 1 1).1.length = 0)
      ∧ (craft_item c2_errs c2_chain (.ok 3) 1 1).2
          = Except.error "Transaction failed with custom error: NotEnoughIngredients" := by
  refine ⟨by decide, by decide, ?_⟩
  rfl

/-- C2 (amended): the code performs no client-side inventory resolution and
defines no PlanningGap.  A craft whose inputs are insufficient is submitted
to the chain anyway; the chain's custom-error rejection is decoded and
raised immediately to the caller, after exactly one submission and with no
retry (no further submissions, whatever the requested quantity). -/
theorem c2_insufficient_inventory_submits
    (errs : List (String × String × String)) (chain : Nat → ChainResult)
    (landId itemId quantity : Nat) (data cname ename : String)
    (hq : 0 < quantity)
    (hchain : chain 0 = ChainResult.customError data)
    (hlook : table_lookup errs (error_selector data) = some (cname, ename)) :
    craft_item errs chain (.ok itemId) landId quantity
      = ([⟨landId, itemId⟩],
          Except.error ("Transaction failed with custom error: " ++ ename)) := by
  cases quantity with
  | zero => omega
  | succ n => simp [craft_item, craft_loop, hchain, execute_function_call, hlook]

/-- Witness for the amended C2 at the concrete `{A: 1}`, `C ← 2×A`
scenario. -/
theorem c2_witness :
    craft_item c2_errs c2_chain (.ok 3) 1 1
      = ([⟨1, 3⟩],
          Except.error "Transaction failed with custom error: NotEnoughIngredients") :=
  c2_insufficient_inventory_submits c2_errs c2_chain 1 3 1 "0xdeadbeef"
    "CraftingSystem" "NotEnoughIngredients" (by decide) rfl (by decide)

/-! ## C10: fuzzy name resolution below threshold raises -/

/-- C10: when the best fuzzy match scores below the threshold,
`name_to_id_fuzzy` raises (it does not return a `None`-like success,
contrary to its docstring), and both `craft_item` and `place_item` with
such a name fail with that error before any on-chain submission is
attempted (their submission lists are empty). -/
theorem c10_fuzzy_below_threshold
    (nameToId : List (String × Nat))
    (extractOne : String → List String → String × Nat)
    (name : String) (threshold : Nat) (hname : name ≠ "unlock")
    (hscore : (extractOne name (nameToId.map (fun p => p.1))).2 < threshold) :
    ∃ msg,
      name_to_id_fuzzy nameToId extractOne name threshold = .error msg
      ∧ (∀ errs chain landId quantity,
          craft_item errs chain
              (name_to_id_fuzzy nameToId extractOne name threshold)
              landId quantity
            = ([], .error msg))
      ∧ (∀ errs outcome landId x y,
          player_place_item errs outcome
              (name_to_id_fuzzy nameToId extractOne name threshold)
              name landId x y
            = ([], .error msg)) := by
  have hres : name_to_id_fuzzy nameToId extractOne name threshold
      = .error ("Could not find a match for " ++ name ++ " with a score of "
          ++ toString (extractOne name (nameToId.map (fun p => p.1))).2) := by
    simp [name_to_id_fuzzy, Nat.not_le.mpr hscore]
  refine ⟨_, hres, ?_, ?_⟩
  · intro errs chain landId quantity
    simp [craft_item, hres]
  · intro errs outcome landId x y
    simp [player_place_item, hname, hres]

/-- Witness for C10: catalog `[("Wood", 1)]`, a matcher scoring 10 against
threshold 80, and the misspelled name "Wxyzq". -/
theorem c10_witness :
    ∃ msg,
      name_to_id_fuzzy [("Wood", 1)] (fun _ _ => ("Wood", 10)) "Wxyzq" 80
          = .error msg
      ∧ (∀ errs chain landId quantity,
          craft_item errs chain
              (name_to_id_fuzzy [("Wood", 1)] (fun _ _ => ("Wood", 10)) "Wxyzq" 80)
              landId quantity
            = ([], .error msg))
      ∧ (∀ errs outcome landId x y,
          player_place_item errs outcome
              (name_to_id_fuzzy [("Wood", 1)] (fun _ _ => ("Wood", 10)) "Wxyzq" 80)
              "Wxyzq" landId x y
            = ([], .error msg)) :=
  c10_fuzzy_below_threshold [("Wood", 1)] (fun _ _ => ("Wood", 10)) "Wxyzq" 80
    (by decide) (by decide)

/-! ## C8: ownership check on an explicit land id -/

/-- C8: constructing a `Player` with an explicit land id that the player's
address does not own raises "The player does not own the specified land."
immediately: exactly one ownership query is made (no retry) and no on-chain
mutating action is attempted (the submission list is empty). -/
theorem c8_ownership_violation
    (ownerOf : Nat → Except String String) (addr owner : String) (l : Nat)
    (hown : ownerOf l = .ok owner) (hne : owner ≠ addr) :
    player_init ownerOf addr (some l)
      = ([l], [], .error "The player does not own the specified land.") := by
  simp [player_init, hown, hne]

/-- Witness for C8: land 5 is owned by "0xb", the player is "0xa". -/
theorem c8_witness :
    player_init (fun _ => .ok "0xb") "0xa" (some 5)
      = ([5], [], .error "The player does not own the specified land.") :=
  c8_ownership_violation (fun _ => .ok "0xb") "0xa" "0xb" 5 rfl (by decide)

/-! ## C9: the probing structure of `find_player_lands` -/

theorem find_lands_go_spec (ownerOf : Nat → Except String String)
    (addr : String) (amount : Nat) :
    ∀ fuel i found,
      ((find_lands_go ownerOf addr amount fuel i found).1
          = List.range' i (find_lands_go ownerOf addr amount fuel i found).1.length)
      ∧ ((find_lands_go ownerOf addr amount fuel i found).1.length ≤ fuel)
      ∧ (∀ l ∈ (find_lands_go ownerOf addr amount fuel i found).2,
          l ∈ (find_lands_go ownerOf addr amount fuel i found).1
            ∧ ownerOf l = .ok addr)
      ∧ (∀ l ∈ (find_lands_go ownerOf addr amount fuel i found).2,
          ∀ g, i ≤ g → g < l → ∃ o, ownerOf g = .ok o)
      ∧ (∀ g ∈ (find_lands_go ownerOf addr amount fuel i found).1,
          (∀ o, ¬ ownerOf g = .ok o) →
            ∀ p ∈ (find_lands_go ownerOf addr amount fuel i found).1, p ≤ g) := by
  intro fuel
  induction fuel with
  | zero =>
      intro i found
      refine ⟨rfl, le_rfl, ?_, ?_, ?_⟩ <;> simp [find_lands_go]
  | succ n ih =>
      intro i found
      cases h : ownerOf i with
      | error e =>
          simp only [find_lands_go, h]
          refine ⟨by simp [List.range'_succ], by simp, by simp, by simp, ?_⟩
          intro g hg _ p hp
          simp only [List.mem_singleton] at hg hp
          omega
      | ok owner =>
          by_cases howner : owner = addr
          · by_cases hstop : 0 < amount ∧ amount ≤ found + 1
            · simp only [find_lands_go, h, howner, if_true]
              rw [if_pos hstop]
              refine ⟨by simp [List.range'_succ], by simp, ?_, ?_, ?_⟩
              · intro l hl
                simp only [List.mem_singleton] at hl
                subst hl
                exact ⟨by simp, howner ▸ h⟩
              · intro l hl g hg1 hg2
                simp only [List.mem_singleton] at hl
                omega
              · intro g hg _ p hp
                simp only [List.mem_singleton] at hg hp
                omega
            · obtain ⟨ih1, ih2, ih3, ih4, ih5⟩ := ih (i + 1) (found + 1)
              simp only [find_lands_go, h, howner, if_true]
              rw [if_neg hstop]
              refine ⟨?_, ?_, ?_, ?_, ?_⟩
              · simp only [List.length_cons, List.range'_succ]
                rw [← ih1]
              · simp only [List.length_cons]
                omega
              · intro l hl
                rcases List.mem_cons.mp hl with hl | hl
                · subst hl
                  exact ⟨List.mem_cons_self _ _, howner ▸ h⟩
                · obtain ⟨hmem, hok⟩ := ih3 l hl
                  exact ⟨List.mem_cons_of_mem _ hmem, hok⟩
              · intro l hl g hg1 hg2
                rcases List.mem_cons.mp hl with hl | hl
                · subst hl
                  omega
                · rcases Nat.eq_or_lt_of_le hg1 with hg | hg
                  · exact ⟨owner, hg ▸ h⟩
                  · exact ih4 l hl g hg hg2
              · intro g hg hgerr p hp
                rcases List.mem_cons.mp hg with hg | hg
                · exact absurd h (hg ▸ hgerr owner)
                · have hgi : i + 1 ≤ g := by
                    have := ih1 ▸ hg
                    exact (List.mem_range'_1.mp this).1
                  rcases List.mem_cons.mp hp with hp | hp
                  · omega
                  · exact ih5 g hg hgerr p hp
          · obtain ⟨ih1, ih2, ih3, ih4, ih5⟩ := ih (i + 1) found
            simp only [find_lands_go, h, howner, if_false]
            refine ⟨?_, ?_, ?_, ?_, ?_⟩
            · simp only [List.length_cons, List.range'_succ]
              rw [← ih1]
            · simp only [List.length_cons]
              omega
            · intro l hl
              obtain ⟨hmem, hok⟩ := ih3 l hl
              exact ⟨List.mem_cons_of_mem _ hmem, hok⟩
            · intro l hl g hg1 hg2
              rcases Nat.eq_or_lt_of_le hg1 with hg | hg
              · exact ⟨owner, hg ▸ h⟩
              · exact ih4 l hl g hg hg2
            · intro g hg hgerr p hp
              rcases List.mem_cons.mp hg with hg | hg
              · exact absurd h (hg ▸ hgerr owner)
              · have hgi : i + 1 ≤ g := by
                  have := ih1 ▸ hg
                  exact (List.mem_range'_1.mp this).1
                rcases List.mem_cons.mp hp with hp | hp
                · omega
                · exact ih5 g hg hgerr p hp

/-- C9: `find_player_lands` probes token ids contiguously upward from 1
(the probe list is `range' 1 k`), makes at most 999 probes (so never
reaches id 1000), a probe that raises is the last probe made, every land
returned was probed and is owned by the player, no land beyond an id whose
query raises is ever returned, and the default land selected by
`Player.__init__` is one of the lands found by
`find_player_lands(world, addr, 1)`. -/
theorem c9_find_player_lands_probe_order (ownerOf : Nat → Except String String)
    (addr : String) (amount : Nat) :
    ((find_player_lands ownerOf addr amount).1
        = List.range' 1 (find_player_lands ownerOf addr amount).1.length)
    ∧ ((find_player_lands ownerOf addr amount).1.length ≤ 999)
    ∧ (∀ l ∈ (find_player_lands ownerOf addr amount).2,
        l ∈ (find_player_lands ownerOf addr amount).1
          ∧ ownerOf l = .ok addr)
    ∧ (∀ l ∈ (find_player_lands ownerOf addr amount).2,
        ∀ g, 1 ≤ g → g < l → ∃ o, ownerOf g = .ok o)
    ∧ (∀ g ∈ (find_player_lands ownerOf addr amount).1,
        (∀ o, ¬ ownerOf g = .ok o) →
          ∀ p ∈ (find_player_lands ownerOf addr amount).1, p ≤ g)
    ∧ (∀ l₀, (player_init ownerOf addr none).2.2 = Except.ok l₀ →
        l₀ ∈ (find_player_lands ownerOf addr 1).2) := by
  obtain ⟨h1, h2, h3, h4, h5⟩ := find_lands_go_spec ownerOf addr amount 999 1 0
  refine ⟨h1, h2, h3, h4, h5, ?_⟩
  intro l₀ hl₀
  simp only [player_init] at hl₀
  cases hr : (find_player_lands ownerOf addr 1).2 with
  | nil => rw [hr] at hl₀; simp at hl₀
  | cons a t =>
      rw [hr] at hl₀
      simp only [Except.ok.injEq] at hl₀
      subst hl₀
      exact List.mem_cons_self _ _

/-- Witness for C9: lands 1 and 2 are owned, id 3 raises (a gap), land 7
beyond the gap is owned but never found. -/
def c9_ownerOf : Nat → Except String String :=
  fun i => if i = 3 then .error "execution reverted" else
    if i = 1 ∨ i = 2 ∨ i = 7 then .ok "0xa" else .ok "0xb"

/-- Witness for C9 at a concrete chain state: the probe list is a
contiguous prefix and land 7 (after the raising id 3) is not found. -/
theorem c9_witness :
    ((find_player_lands c9_ownerOf "0xa" 0).1
        = List.range' 1 (find_player_lands c9_ownerOf "0xa" 0).1.length)
    ∧ (∀ l ∈ (find_player_lands c9_ownerOf "0xa" 0).2,
        l ∈ (find_player_lands c9_ownerOf "0xa" 0).1
          ∧ c9_ownerOf l = .ok "0xa")
    ∧ 7 ∉ (find_player_lands c9_ownerOf "0xa" 0).2 := by
  refine ⟨(c9_find_player_lands_probe_order c9_ownerOf "0xa" 0).1,
    (c9_find_player_lands_probe_order c9_ownerOf "0xa" 0).2.2.1, ?_⟩
  intro hmem
  obtain ⟨o, ho⟩ :=
    (c9_find_player_lands_probe_order c9_ownerOf "0xa" 0).2.2.2.1 7 hmem 3
      (by decide) (by decide)
  simp [c9_ownerOf] at ho

/-! ## The unlock scan (`Player.get_unlockable_transformations`) -/

/-- One row of `indexer.LandItem.get(landId=...)`. -/
structure LandItem where
  itemid : Nat
  placementtime : Nat
  x : Int
  y : Int
  deriving DecidableEq

/-- One row of `indexer.Transformations.get(input=0)` (base-sentinel
transformations only). -/
structure Transformation where
  base : Nat
  unlocktime : Nat
  deriving DecidableEq

/-- The `next(...)` search in `get_unlockable_transformations`: the first
transformation whose `base` equals the item's id (both are decimal strings
of the same integers in the source, so equality of the numbers is
equality of the strings). -/
def find_matching (trans : List Transformation) (itemid : Nat) :
    Option Transformation :=
  trans.find? (fun t => t.base == itemid)

/-- The return value of `get_unlockable_transformations`. -/
structure UnlockScan where
  coordinates : List (Int × Int)
  nextUnlock : Option Nat
  deriving DecidableEq

/-- One iteration of the loop in `get_unlockable_transformations`
(lines 204-225): a matching transformation either appends the item's
coordinates (unlock time elapsed) or lowers the closest future unlock
time. -/
def scan_step (trans : List Transformation) (timestamp : Nat)
    (acc : List (Int × Int) × Option Nat) (item : LandItem) :
    List (Int × Int) × Option Nat :=
  match find_matching trans item.itemid with
  | none => acc
  | some t =>
      let total := t.unlocktime + item.placementtime
      if total ≤ timestamp then (acc.1 ++ [(item.x, item.y)], acc.2)
      else
        match acc.2 with
        | none => (acc.1, some total)
        | some c => if total < c then (acc.1, some total) else (acc.1, some c)

/-- `Player.get_unlockable_transformations` (lines 196-230). -/
def get_unlockable_transformations (trans : List Transformation)
    (land : List LandItem) (timestamp : Nat) : UnlockScan :=
  let r := land.foldl (scan_step trans timestamp) ([], none)
  ⟨r.1, r.2⟩

/-- The coordinates an item contributes to the ready list: present exactly
when its first matching transformation's unlock time has elapsed. -/
def ready_item (trans : List Transformation) (timestamp : Nat)
    (item : LandItem) : Option (Int × Int) :=
  match find_matching trans item.itemid with
  | some t =>
      if t.unlocktime + item.placementtime ≤ timestamp
      then some (item.x, item.y) else none
  | none => none

/-- The future unlock time an item contributes: present exactly when its
first matching transformation's unlock time has not yet elapsed. -/
def pending_time (trans : List Transformation) (timestamp : Nat)
    (item : LandItem) : Option Nat :=
  match find_matching trans item.itemid with
  | some t =>
      if t.unlocktime + item.placementtime ≤ timestamp
      then none else some (t.unlocktime + item.placementtime)
  | none => none

/-- Running minimum, as computed by the `closest_unlock_time` updates. -/
def fold_min (o : Option Nat) (l : List Nat) : Option Nat :=
  l.foldl (fun acc t =>
    match acc with
    | none => some t
    | some c => if t < c then some t else some c) o

theorem scan_fold (trans : List Transformation) (timestamp : Nat) :
    ∀ (land : List LandItem) (acc : List (Int × Int) × Option Nat),
      land.foldl (scan_step trans timestamp) acc
        = (acc.1 ++ land.filterMap (ready_item trans timestamp),
            fold_min acc.2 (land.filterMap (pending_time trans timestamp))) := by
  intro land
  induction land with
  | nil => intro acc; simp [fold_min]
  | cons item rest ih =>
      intro acc
      simp only [List.foldl_cons, List.filterMap_cons]
      rw [ih]
      cases hm : find_matching trans item.itemid with
      | none =>
          simp [scan_step, ready_item, pending_time, hm]
      | some t =>
          by_cases hel : t.unlocktime + item.placementtime ≤ timestamp
          · simp only [scan_step, ready_item, pending_time, hm, if_pos hel]
            simp
          · simp only [scan_step, ready_item, pending_time, hm, if_neg hel]
            cases hacc : acc.2 with
            | none => simp [fold_min]
            | some c => cases Nat.lt_or_ge (t.unlocktime + item.placementtime) c with
                | inl hlt => simp [fold_min, if_pos hlt]
                | inr hge => simp [fold_min, if_neg (Nat.not_lt.mpr hge)]

theorem fold_min_some_spec :
    ∀ (l : List Nat) (c : Nat),
      ∃ m, fold_min (some c) l = some m ∧ (m = c ∨ m ∈ l) ∧ m ≤ c
        ∧ ∀ v ∈ l, m ≤ v := by
  intro l
  induction l with
  | nil => intro c; exact ⟨c, rfl, Or.inl rfl, le_rfl, by simp⟩
  | cons t rest ih =>
      intro c
      by_cases hlt : t < c
      · obtain ⟨m, hm, hmem, hle, hbd⟩ := ih t
        refine ⟨m, ?_, ?_, by omega, ?_⟩
        · simpa [fold_min, if_pos hlt] using hm
        · rcases hmem with h | h
          · exact Or.inr (by rw [h]; exact List.mem_cons_self _ _)
          · exact Or.inr (List.mem_cons_of_mem _ h)
        · intro v hv
          rcases List.mem_cons.mp hv with hv | hv
          · omega
          · exact hbd v hv
      · obtain ⟨m, hm, hmem, hle, hbd⟩ := ih c
        refine ⟨m, ?_, ?_, hle, ?_⟩
        · simpa [fold_min, if_neg hlt] using hm
        · rcases hmem with h | h
          · exact Or.inl h
          · exact Or.inr (List.mem_cons_of_mem _ h)
        · intro v hv
          rcases List.mem_cons.mp hv with hv | hv
          · omega
          · exact hbd v hv

theorem fold_min_none_eq_none_iff (l : List Nat) :
    fold_min none l = none ↔ l = [] := by
  cases l with
  | nil => simp [fold_min]
  | cons t rest =>
      simp only [fold_min, List.foldl_cons]
      obtain ⟨m, hm, _, _, _⟩ := fold_min_some_spec rest t
      constructor
      · intro h
        rw [show (List.foldl _ (some t) rest : Option Nat) = fold_min (some t) rest from rfl, hm] at h
        cases h
      · intro h; cases h

theorem fold_min_none_spec (l : List Nat) (u : Nat)
    (h : fold_min none l = some u) : u ∈ l ∧ ∀ v ∈ l, u ≤ v := by
  cases l with
  | nil => cases h
  | cons t rest =>
      obtain ⟨m, hm, hmem, hle, hbd⟩ := fold_min_some_spec rest t
      have hfold : fold_min none (t :: rest) = fold_min (some t) rest := rfl
      rw [hfold, hm] at h
      cases h
      constructor
      · rcases hmem with h | h
        · exact h ▸ List.mem_cons_self _ _
        · exact List.mem_cons_of_mem _ h
      · intro v hv
        rcases List.mem_cons.mp hv with hv | hv
        · omega
        · exact hbd v hv

/-! ## C3: correctness of the unlock scan -/

/-- C3: the scan returns as ready exactly the coordinates of placed items
whose (first) matching base-sentinel transformation has
`unlocktime + placementtime <= timestamp`; `nextUnlock` is absent exactly
when no item's matching unlock time is still in the future, and otherwise
is the minimum of those future unlock times.  The last conjunct identifies
the future unlock times with the not-yet-elapsed matched items. -/
theorem c3_unlock_scan (trans : List Transformation) (land : List LandItem)
    (ts : Nat) :
    (∀ c : Int × Int,
        c ∈ (get_unlockable_transformations trans land ts).coordinates ↔
          ∃ item ∈ land, ∃ t, find_matching trans item.itemid = some t
            ∧ t.unlocktime + item.placementtime ≤ ts
            ∧ (item.x, item.y) = c)
    ∧ ((get_unlockable_transformations trans land ts).nextUnlock = none ↔
        land.filterMap (pending_time trans ts) = [])
    ∧ (∀ u, (get_unlockable_transformations trans land ts).nextUnlock = some u →
        u ∈ land.filterMap (pending_time trans ts)
          ∧ ∀ v ∈ land.filterMap (pending_time trans ts), u ≤ v)
    ∧ (∀ u : Nat, u ∈ land.filterMap (pending_time trans ts) ↔
        ∃ item ∈ land, ∃ t, find_matching trans item.itemid = some t
          ∧ ts < t.unlocktime + item.placementtime
          ∧ t.unlocktime + item.placementtime = u) := by
  have hfold := scan_fold trans ts land ([], none)
  have hcoords : (get_unlockable_transformations trans land ts).coordinates
      = land.filterMap (ready_item trans ts) := by
    simp [get_unlockable_transformations, hfold]
  have hnext : (get_unlockable_transformations trans land ts).nextUnlock
      = fold_min none (land.filterMap (pending_time trans ts)) := by
    simp [get_unlockable_transformations, hfold]
  refine ⟨?_, ?_, ?_, ?_⟩
  · intro c
    rw [hcoords, List.mem_filterMap]
    constructor
    · rintro ⟨item, hitem, hread⟩
      cases hm : find_matching trans item.itemid with
      | none =>
          simp only [ready_item, hm] at hread
          exact Option.noConfusion hread
      | some t =>
          by_cases hel : t.unlocktime + item.placementtime ≤ ts
          · simp only [ready_item, hm, if_pos hel, Option.some.injEq] at hread
            exact ⟨item, hitem, t, hm, hel, hread⟩
          · simp only [ready_item, hm, if_neg hel] at hread
            exact Option.noConfusion hread
    · rintro ⟨item, hitem, t, hm, hel, hc⟩
      exact ⟨item, hitem, by simp only [ready_item, hm, if_pos hel, hc]⟩
  · rw [hnext]; exact fold_min_none_eq_none_iff _
  · intro u hu
    rw [hnext] at hu
    exact fold_min_none_spec _ u hu
  · intro u
    rw [List.mem_filterMap]
    constructor
    · rintro ⟨item, hitem, hpend⟩
      cases hm : find_matching trans item.itemid with
      | none =>
          simp only [pending_time, hm] at hpend
          exact Option.noConfusion hpend
      | some t =>
          by_cases hel : t.unlocktime + item.placementtime ≤ ts
          · simp only [pending_time, hm, if_pos hel] at hpend
            exact Option.noConfusion hpend
          · simp only [pending_time, hm, if_neg hel, Option.some.injEq] at hpend
            exact ⟨item, hitem, t, hm, by omega, hpend⟩
    · rintro ⟨item, hitem, t, hm, hel, hu⟩
      refine ⟨item, hitem, ?_⟩
      have hnel : ¬ t.unlocktime + item.placementtime ≤ ts := by omega
      simp only [pending_time, hm, if_neg hnel]
      rw [hu]

/-- Concrete transformations for the C3/C6 witnesses. -/
def c3_trans : List Transformation := [⟨1, 10⟩, ⟨2, 100⟩]

/-- Concrete land for the C3/C6 witnesses: item 1 placed at time 5 at
(0,0) (unlocks at 15), item 2 placed at time 5 at (1,1) (unlocks at
105). -/
def c3_land : List LandItem := [⟨1, 5, 0, 0⟩, ⟨2, 5, 1, 1⟩]

/-- Witness for C3 at chain time 20: (0,0) is ready and 105 is the minimum
pending unlock time. -/
theorem c3_witness :
    (((0 : Int), (0 : Int))
        ∈ (get_unlockable_transformations c3_trans c3_land 20).coordinates)
    ∧ (105 ∈ c3_land.filterMap (pending_time c3_trans 20)
        ∧ ∀ v ∈ c3_land.filterMap (pending_time c3_trans 20), 105 ≤ v) :=
  ⟨((c3_unlock_scan c3_trans c3_land 20).1 (0, 0)).mpr
      ⟨⟨1, 5, 0, 0⟩, by decide, ⟨1, 10⟩, by decide, by decide, rfl⟩,
    (c3_unlock_scan c3_trans c3_land 20).2.2.1 105 rfl⟩

/-! ## C6: the auto-farm wait computation -/

/-- The wait at the bottom of `Player.auto_farm` (lines 280-288):
`if next_unlock_time:` is Python truthiness, so `None` and `0` both take
the default 30-second branch; otherwise the wait is
`max(0, next_unlock_time - time.time() + 1)`. -/
def auto_farm_wait (nextUnlock : Option Nat) (now : Int) : Int :=
  match nextUnlock with
  | some n => if n = 0 then 30 else max 0 ((n : Int) - now + 1)
  | none => 30

/-- A scan never reports a next unlock time at or before the scan's chain
timestamp (it only tracks strictly future unlock times). -/
theorem next_unlock_pos (trans : List Transformation) (land : List LandItem)
    (ts : Nat) (u : Nat)
    (h : (get_unlockable_transformations trans land ts).nextUnlock = some u) :
    ts < u := by
  have hfold := scan_fold trans ts land ([], none)
  have hnext : (get_unlockable_transformations trans land ts).nextUnlock
      = fold_min none (land.filterMap (pending_time trans ts)) := by
    simp [get_unlockable_transformations, hfold]
  rw [hnext] at h
  obtain ⟨hmem, _⟩ := fold_min_none_spec _ u h
  obtain ⟨item, _, hpend⟩ := List.mem_filterMap.mp hmem
  cases hm : find_matching trans item.itemid with
  | none =>
      simp only [pending_time, hm] at hpend
      exact Option.noConfusion hpend
  | some t =>
      by_cases hel : t.unlocktime + item.placementtime ≤ ts
      · simp only [pending_time, hm, if_pos hel] at hpend
        exact Option.noConfusion hpend
      · simp only [pending_time, hm, if_neg hel, Option.some.injEq] at hpend
        omega

/-- C6: at the end of a scan cycle, a known next unlock time `u` makes the
loop suspend for `max 0 (u - now + 1)` (one time unit of safety margin,
clamped at zero), and an unknown one makes it suspend for the fixed
default of 30 time units. -/
theorem c6_auto_farm_wait (trans : List Transformation) (land : List LandItem)
    (ts : Nat) (now : Int) :
    ((get_unlockable_transformations trans land ts).nextUnlock = none →
        auto_farm_wait (get_unlockable_transformations trans land ts).nextUnlock now
          = 30)
    ∧ (∀ u, (get_unlockable_transformations trans land ts).nextUnlock = some u →
        auto_farm_wait (get_unlockable_transformations trans land ts).nextUnlock now
          = max 0 ((u : Int) - now + 1)) := by
  constructor
  · intro h; rw [h]; rfl
  · intro u hu
    have hpos := next_unlock_pos trans land ts u hu
    rw [hu]
    simp only [auto_farm_wait]
    rw [if_neg (by omega)]

/-- Witness for C6: with the concrete scan of `c3_land` at chain time 20
the loop waits `max 0 (105 - 100 + 1) = 6` at `now = 100`, and with an
empty land (no next unlock) it waits 30. -/
theorem c6_witness :
    auto_farm_wait (get_unlockable_transformations c3_trans c3_land 20).nextUnlock 100
        = max 0 ((105 : Int) - 100 + 1)
    ∧ auto_farm_wait (get_unlockable_transformations c3_trans [] 20).nextUnlock 0
        = 30 :=
  ⟨(c6_auto_farm_wait c3_trans c3_land 20 100).2 105 rfl,
    (c6_auto_farm_wait c3_trans [] 20 0).1 rfl⟩

/-! ## The unlock scheduler (`Player.unlock_all`, `Player.auto_farm`) -/

/-- Environment of the scheduler: `scan t` is the result of the `t`-th call
to `get_unlockable_transformations` (world state may change between calls),
`placeOk t c` tells whether the unlock submission for coordinate `c` made
at step `t` succeeds.  Each environment interaction advances the step
counter by one. -/
structure FarmEnv where
  scan : Nat → UnlockScan
  placeOk : Nat → (Int × Int) → Bool

/-- Observable scheduler events: a re-verification of a coordinate against
a fresh scan, and an unlock submission. -/
inductive FarmEvent where
  | check (time : Nat) (coord : Int × Int) (ready : Bool)
  | submit (time : Nat) (coord : Int × Int) (ok : Bool)
  deriving DecidableEq

/-- The loop of `Player.unlock_all` (lines 237-249): for each coordinate of
the initial scan, re-fetch the scan, skip the coordinate if it is no longer
ready, otherwise submit one unlock (`place_item(x, y, "unlock")`); a failed
submission is caught and the coordinate is appended to `failed_items`.
Returns `(events, failed coordinates, next step counter)`. -/
def unlock_all_go (env : FarmEnv) :
    List (Int × Int) → Nat → List FarmEvent × List (Int × Int) × Nat
  | [], t => ([], [], t)
  | c :: cs, t =>
      if c ∈ (env.scan t).coordinates then
        let ok := env.placeOk (t + 1) c
        let r := unlock_all_go env cs (t + 2)
        (.check t c true :: .submit (t + 1) c ok :: r.1,
          (if ok then r.2.1 else c :: r.2.1), r.2.2)
      else
        let r := unlock_all_go env cs (t + 1)
        (.check t c false :: r.1, r.2.1, r.2.2)

/-- `Player.unlock_all` (lines 232-252): one initial scan (step `t`) gives
the coordinate list, then the loop above runs from step `t + 1`. -/
def unlock_all (env : FarmEnv) (t : Nat) :
    List FarmEvent × List (Int × Int) × Nat :=
  unlock_all_go env (env.scan t).coordinates (t + 1)

/-- The retry loop inside `Player.auto_farm` (lines 265-278): same
re-verify-then-submit shape over the failed coordinates, but retry failures
are only printed, never collected, and nothing is retried again. -/
def retry_pass_go (env : FarmEnv) :
    List (Int × Int) → Nat → List FarmEvent × Nat
  | [], t => ([], t)
  | c :: cs, t =>
      if c ∈ (env.scan t).coordinates then
        let ok := env.placeOk (t + 1) c
        let r := retry_pass_go env cs (t + 2)
        (.check t c true :: .submit (t + 1) c ok :: r.1, r.2)
      else
        let r := retry_pass_go env cs (t + 1)
        (.check t c false :: r.1, r.2)

/-- One iteration of the `while True` body of `Player.auto_farm`
(lines 255-278, before the sleep): scan; if anything is ready run
`unlock_all`, then run exactly one retry pass over its failures.  Returns
`(events, nextUnlock of the iteration's first scan, next step counter)`. -/
def auto_farm_cycle (env : FarmEnv) (t : Nat) :
    List FarmEvent × Option Nat × Nat :=
  let scan0 := env.scan t
  if scan0.coordinates = [] then ([], scan0.nextUnlock, t + 1)
  else
    let r1 := unlock_all env (t + 1)
    if r1.2.1 = [] then (r1.1, scan0.nextUnlock, r1.2.2)
    else
      let r2 := retry_pass_go env r1.2.1 r1.2.2
      (r1.1 ++ r2.1, scan0.nextUnlock, r2.2)

/-- The coordinates of failed submissions in an event list, in order. -/
def failed_of (evs : List FarmEvent) : List (Int × Int) :=
  evs.filterMap (fun e =>
    match e with
    | .submit _ c false => some c
    | _ => none)

/-- The coordinates re-verified in an event list, in order. -/
def checked_coords (evs : List FarmEvent) : List (Int × Int) :=
  evs.filterMap (fun e =>
    match e with
    | .check _ c _ => some c
    | _ => none)

/-- Whether an event is an unlock submission for coordinate `c`. -/
def is_submit_for (c : Int × Int) : FarmEvent → Bool
  | .submit _ c2 _ => c2 == c
  | _ => false

/-- Occurrences of a coordinate in a list. -/
def occ (c : Int × Int) (cs : List (Int × Int)) : Nat :=
  (cs.filter (fun x => x == c)).length

theorem failed_of_check (t : Nat) (c : Int × Int) (b : Bool)
    (evs : List FarmEvent) :
    failed_of (.check t c b :: evs) = failed_of evs := rfl

theorem failed_of_submit (t : Nat) (c : Int × Int) (ok : Bool)
    (evs : List FarmEvent) :
    failed_of (.submit t c ok :: evs)
      = if ok then failed_of evs else c :: failed_of evs := by
  cases ok <;> rfl

theorem checked_coords_check (t : Nat) (c : Int × Int) (b : Bool)
    (evs : List FarmEvent) :
    checked_coords (.check t c b :: evs) = c :: checked_coords evs := rfl

theorem checked_coords_submit (t : Nat) (c : Int × Int) (ok : Bool)
    (evs : List FarmEvent) :
    checked_coords (.submit t c ok :: evs) = checked_coords evs := rfl

theorem submit_filter_check (c : Int × Int) (t : Nat) (c2 : Int × Int)
    (b : Bool) (evs : List FarmEvent) :
    List.filter (is_submit_for c) (.check t c2 b :: evs)
      = List.filter (is_submit_for c) evs := by
  simp [List.filter_cons, is_submit_for]

theorem submit_filter_submit (c : Int × Int) (t : Nat) (c2 : Int × Int)
    (ok : Bool) (evs : List FarmEvent) :
    (List.filter (is_submit_for c) (.submit t c2 ok :: evs)).length
      = (if c2 == c then 1 else 0)
        + (List.filter (is_submit_for c) evs).length := by
  rcases Bool.eq_false_or_eq_true (c2 == c) with h | h
  · simp [List.filter_cons, is_submit_for, h]
    omega
  · simp [List.filter_cons, is_submit_for, h]

theorem occ_cons (c c2 : Int × Int) (cs : List (Int × Int)) :
    occ c (c2 :: cs) = (if c2 == c then 1 else 0) + occ c cs := by
  rcases Bool.eq_false_or_eq_true (c2 == c) with h | h
  · simp [occ, List.filter_cons, h]
    omega
  · simp [occ, List.filter_cons, h]

theorem unlock_all_go_events (env : FarmEnv) :
    ∀ (cs : List (Int × Int)) (t : Nat),
      (∀ tm c ok, FarmEvent.submit tm c ok ∈ (unlock_all_go env cs t).1 →
          1 ≤ tm ∧ c ∈ (env.scan (tm - 1)).coordinates
            ∧ FarmEvent.check (tm - 1) c true ∈ (unlock_all_go env cs t).1
            ∧ ok = env.placeOk tm c)
      ∧ ((unlock_all_go env cs t).2.1 = failed_of (unlock_all_go env cs t).1)
      ∧ (checked_coords (unlock_all_go env cs t).1 = cs)
      ∧ (∀ c, ((unlock_all_go env cs t).1.filter (is_submit_for c)).length
            ≤ occ c cs) := by
  intro cs
  induction cs with
  | nil =>
      intro t
      refine ⟨?_, rfl, rfl, ?_⟩
      · intro tm c ok h
        exact absurd h (List.not_mem_nil _)
      · intro c
        simp [unlock_all_go, occ]
  | cons c cs ih =>
      intro t
      by_cases hin : c ∈ (env.scan t).coordinates
      · obtain ⟨ih1, ih2, ih3, ih4⟩ := ih (t + 2)
        simp only [unlock_all_go, if_pos hin]
        refine ⟨?_, ?_, ?_, ?_⟩
        · intro tm c2 ok2 h
          rcases List.mem_cons.mp h with h | h
          · cases h
          · rcases List.mem_cons.mp h with h | h
            · injection h with h1 h2 h3
              subst h1; subst h2; subst h3
              refine ⟨by omega, ?_, ?_, rfl⟩
              · simpa using hin
              · exact List.mem_cons_self _ _
            · obtain ⟨htm, hsc, hck, hok⟩ := ih1 tm c2 ok2 h
              exact ⟨htm, hsc,
                List.mem_cons_of_mem _ (List.mem_cons_of_mem _ hck), hok⟩
        · rw [failed_of_check, failed_of_submit, ← ih2]
        · rw [checked_coords_check, checked_coords_submit, ih3]
        · intro c2
          rw [submit_filter_check, submit_filter_submit, occ_cons]
          exact Nat.add_le_add_left (ih4 c2) _
      · obtain ⟨ih1, ih2, ih3, ih4⟩ := ih (t + 1)
        simp only [unlock_all_go, if_neg hin]
        refine ⟨?_, ?_, ?_, ?_⟩
        · intro tm c2 ok2 h
          rcases List.mem_cons.mp h with h | h
          · cases h
          · obtain ⟨htm, hsc, hck, hok⟩ := ih1 tm c2 ok2 h
            exact ⟨htm, hsc, List.mem_cons_of_mem _ hck, hok⟩
        · rw [failed_of_check, ← ih2]
        · rw [checked_coords_check, ih3]
        · intro c2
          rw [submit_filter_check, occ_cons]
          exact le_trans (ih4 c2) (by omega)

theorem retry_pass_go_events (env : FarmEnv) :
    ∀ (cs : List (Int × Int)) (t : Nat),
      (∀ tm c ok, FarmEvent.submit tm c ok ∈ (retry_pass_go env cs t).1 →
          1 ≤ tm ∧ c ∈ (env.scan (tm - 1)).coordinates
            ∧ FarmEvent.check (tm - 1) c true ∈ (retry_pass_go env cs t).1
            ∧ ok = env.placeOk tm c)
      ∧ (checked_coords (retry_pass_go env cs t).1 = cs)
      ∧ (∀ c, ((retry_pass_go env cs t).1.filter (is_submit_for c)).length
            ≤ occ c cs) := by
  intro cs
  induction cs with
  | nil =>
      intro t
      refine ⟨?_, rfl, ?_⟩
      · intro tm c ok h
        exact absurd h (List.not_mem_nil _)
      · intro c
        simp [retry_pass_go, occ]
  | cons c cs ih =>
      intro t
      by_cases hin : c ∈ (env.scan t).coordinates
      · obtain ⟨ih1, ih3, ih4⟩ := ih (t + 2)
        simp only [retry_pass_go, if_pos hin]
        refine ⟨?_, ?_, ?_⟩
        · intro tm c2 ok2 h
          rcases List.mem_cons.mp h with h | h
          · cases h
          · rcases List.mem_cons.mp h with h | h
            · injection h with h1 h2 h3
              subst h1; subst h2; subst h3
              refine ⟨by omega, ?_, ?_, rfl⟩
              · simpa using hin
              · exact List.mem_cons_self _ _
            · obtain ⟨htm, hsc, hck, hok⟩ := ih1 tm c2 ok2 h
              exact ⟨htm, hsc,
                List.mem_cons_of_mem _ (List.mem_cons_of_mem _ hck), hok⟩
        · rw [checked_coords_check, checked_coords_submit, ih3]
        · intro c2
          rw [submit_filter_check, submit_filter_submit, occ_cons]
          exact Nat.add_le_add_left (ih4 c2) _
      · obtain ⟨ih1, ih3, ih4⟩ := ih (t + 1)
        simp only [retry_pass_go, if_neg hin]
        refine ⟨?_, ?_, ?_⟩
        · intro tm c2 ok2 h
          rcases List.mem_cons.mp h with h | h
          · cases h
          · obtain ⟨htm, hsc, hck, hok⟩ := ih1 tm c2 ok2 h
            exact ⟨htm, hsc, List.mem_cons_of_mem _ hck, hok⟩
        · rw [checked_coords_check, ih3]
        · intro c2
          rw [submit_filter_check, occ_cons]
          exact le_trans (ih4 c2) (by omega)

theorem occ_eq_zero_of_not_mem (c : Int × Int) :
    ∀ cs : List (Int × Int), c ∉ cs → occ c cs = 0 := by
  intro cs
  induction cs with
  | nil => intro _; rfl
  | cons x cs ih =>
      intro hnm
      rw [occ_cons]
      have hx : ¬ (x == c) = true := by
        simp only [beq_iff_eq]
        rintro rfl
        exact hnm (List.mem_cons_self _ _)
      rw [if_neg hx]
      simpa using ih (fun h => hnm (List.mem_cons_of_mem _ h))

theorem occ_le_one_of_nodup :
    ∀ cs : List (Int × Int), cs.Nodup → ∀ c, occ c cs ≤ 1 := by
  intro cs
  induction cs with
  | nil => intro _ c; simp [occ]
  | cons x cs ih =>
      intro hnd c
      obtain ⟨hx, hnd2⟩ := List.nodup_cons.mp hnd
      rw [occ_cons]
      rcases Bool.eq_false_or_eq_true (x == c) with h | h
      · rw [h]
        have hxc : x = c := by simpa using h
        subst hxc
        have h0 : occ x cs = 0 := occ_eq_zero_of_not_mem x cs hx
        rw [if_pos rfl, h0]
      · rw [h]
        simpa using ih hnd2 c

theorem occ_failed_le (c : Int × Int) :
    ∀ evs : List FarmEvent,
      occ c (failed_of evs) ≤ (evs.filter (is_submit_for c)).length := by
  intro evs
  induction evs with
  | nil => simp [failed_of, occ]
  | cons e evs ih =>
      cases e with
      | check tm c2 b =>
          rw [failed_of_check, submit_filter_check]
          exact ih
      | submit tm c2 ok =>
          rw [failed_of_submit, submit_filter_submit]
          cases ok
          · rw [if_neg Bool.false_ne_true, occ_cons]
            exact Nat.add_le_add_left ih _
          · rw [if_pos rfl]
            exact le_trans ih (by omega)

/-! ## C5: re-verification and single bounded retry in the unlock cycle -/

/-- C5: in one `auto_farm` cycle, (1) every unlock submission at step `tm`
is immediately preceded by a re-verification at step `tm - 1` that found
the coordinate still ready; (2) `unlock_all` collects as its failure list
exactly the coordinates of its failed submissions, in order; (3) the retry
pass re-verifies exactly those failed coordinates, once each; (4) when the
ready list is duplicate-free, no coordinate is submitted more than twice in
the cycle (first pass plus at most one retry), and the cycle is a total
function — residual failures never abort it. -/
theorem c5_unlock_cycle (env : FarmEnv) (t : Nat)
    (hnodup : ((env.scan (t + 1)).coordinates).Nodup) :
    (∀ tm c ok, FarmEvent.submit tm c ok ∈ (auto_farm_cycle env t).1 →
        1 ≤ tm ∧ c ∈ (env.scan (tm - 1)).coordinates
          ∧ FarmEvent.check (tm - 1) c true ∈ (auto_farm_cycle env t).1)
    ∧ ((unlock_all env (t + 1)).2.1 = failed_of (unlock_all env (t + 1)).1)
    ∧ (checked_coords (retry_pass_go env (unlock_all env (t + 1)).2.1
          (unlock_all env (t + 1)).2.2).1 = (unlock_all env (t + 1)).2.1)
    ∧ (∀ c, ((auto_farm_cycle env t).1.filter (is_submit_for c)).length ≤ 2) := by
  obtain ⟨hU1, hU2, hU3, hU4⟩ :=
    unlock_all_go_events env ((env.scan (t + 1)).coordinates) (t + 2)
  obtain ⟨hR1, hR3, hR4⟩ :=
    retry_pass_go_events env (unlock_all env (t + 1)).2.1
      (unlock_all env (t + 1)).2.2
  have hUdef : unlock_all env (t + 1)
      = unlock_all_go env ((env.scan (t + 1)).coordinates) (t + 2) := rfl
  have hfirst : ∀ c,
      ((unlock_all env (t + 1)).1.filter (is_submit_for c)).length ≤ 1 := by
    intro c
    rw [hUdef]
    exact le_trans (hU4 c) (occ_le_one_of_nodup _ hnodup c)
  have hsecond : ∀ c,
      ((retry_pass_go env (unlock_all env (t + 1)).2.1
          (unlock_all env (t + 1)).2.2).1.filter (is_submit_for c)).length ≤ 1 := by
    intro c
    refine le_trans (hR4 c) ?_
    have h2 : occ c (unlock_all env (t + 1)).2.1
        = occ c (failed_of (unlock_all env (t + 1)).1) := by
      rw [hUdef, hU2]
    rw [h2]
    exact le_trans (occ_failed_le c _) (hfirst c)
  by_cases h0 : (env.scan t).coordinates = []
  · have hcyc : (auto_farm_cycle env t).1 = [] := by
      simp [auto_farm_cycle, h0]
    refine ⟨?_, hUdef ▸ hU2, hUdef ▸ hR3, ?_⟩
    · intro tm c ok h
      rw [hcyc] at h
      exact absurd h (List.not_mem_nil _)
    · intro c
      rw [hcyc]
      simp
  · by_cases hf : (unlock_all env (t + 1)).2.1 = []
    · have hcyc : (auto_farm_cycle env t).1 = (unlock_all env (t + 1)).1 := by
        simp [auto_farm_cycle, h0, hf]
      refine ⟨?_, hUdef ▸ hU2, hUdef ▸ hR3, ?_⟩
      · intro tm c ok h
        rw [hcyc] at h ⊢
        obtain ⟨htm, hsc, hck, _⟩ := hU1 tm c ok (hUdef ▸ h)
        exact ⟨htm, hsc, hUdef ▸ hck⟩
      · intro c
        rw [hcyc]
        exact le_trans (hfirst c) (by omega)
    · have hcyc : (auto_farm_cycle env t).1
          = (unlock_all env (t + 1)).1
            ++ (retry_pass_go env (unlock_all env (t + 1)).2.1
                  (unlock_all env (t + 1)).2.2).1 := by
        simp [auto_farm_cycle, h0, hf]
      refine ⟨?_, hUdef ▸ hU2, hUdef ▸ hR3, ?_⟩
      · intro tm c ok h
        rw [hcyc] at h ⊢
        rcases List.mem_append.mp h with h | h
        · obtain ⟨htm, hsc, hck, _⟩ := hU1 tm c ok (hUdef ▸ h)
          exact ⟨htm, hsc, List.mem_append_left _ (hUdef ▸ hck)⟩
        · obtain ⟨htm, hsc, hck, _⟩ := hR1 tm c ok h
          exact ⟨htm, hsc, List.mem_append_right _ hck⟩
      · intro c
        rw [hcyc, List.filter_append, List.length_append]
        exact Nat.add_le_add (hfirst c) (hsecond c)

/-- Environment for the C5 witness: two coordinates are always reported
ready; the submission at step 5 (the first attempt for (1,1)) fails, every
other submission succeeds. -/
def c5_env : FarmEnv :=
  ⟨fun _ => ⟨[((0 : Int), (0 : Int)), ((1 : Int), (1 : Int))], none⟩,
    fun tm _ => tm != 5⟩

/-- Witness for C5: in the concrete cycle, the first pass fails on (1,1),
the failure list is exactly that, (1,1) is submitted at most twice, and the
retry submission at step 7 was re-verified at step 6. -/
theorem c5_witness :
    ((unlock_all c5_env 1).2.1 = failed_of (unlock_all c5_env 1).1)
    ∧ (((auto_farm_cycle c5_env 0).1.filter
          (is_submit_for ((1 : Int), (1 : Int)))).length ≤ 2)
    ∧ (1 ≤ 7
        ∧ ((1 : Int), (1 : Int)) ∈ (c5_env.scan 6).coordinates
        ∧ FarmEvent.check 6 ((1 : Int), (1 : Int)) true
            ∈ (auto_farm_cycle c5_env 0).1) :=
  ⟨(c5_unlock_cycle c5_env 0 (by decide)).2.1,
    (c5_unlock_cycle c5_env 0 (by decide)).2.2.2 ((1 : Int), (1 : Int)),
    (c5_unlock_cycle c5_env 0 (by decide)).1 7 ((1 : Int), (1 : Int)) true
      (by decide)⟩

/-! ## Craftable computation (`get_craftable`) -/

/-- Python dict lookup with default (`dict.get(k, d)`) for a dict built
from a key-value list where later bindings overwrite earlier ones. -/
def dget (l : List (String × Nat)) (k : String) (d : Nat) : Nat :=
  match l.reverse.find? (fun p => p.1 == k) with
  | some p => p.2
  | none => d

/-- Python `str.lower()` (ASCII case mapping), written to be evaluable by
the kernel. -/
def lower_string (s : String) : String := ⟨s.data.map Char.toLower⟩

/-- Python `str.strip()` (drop surrounding whitespace), written to be
evaluable by the kernel. -/
def trim_string (s : String) : String :=
  ⟨((s.data.dropWhile Char.isWhitespace).reverse.dropWhile
      Char.isWhitespace).reverse⟩

/-- One row of `indexer.CraftingRecipe.get()`. -/
structure Recipe where
  output : Nat
  inputs : List Nat
  quantities : List Nat
  deriving DecidableEq

/-- `input_name = id_to_name.get(input_id, f"Unknown ID {input_id}")`,
where `id_to_name` maps ids to catalog names with `.strip()` applied. -/
def input_name (idToName : Nat → Option String) (iid : Nat) : String :=
  match idToName iid with
  | some s => trim_string s
  | none => "Unknown ID " ++ toString iid

/-- `available_quantity = standardized_inventory.get(input_name.lower(), 0)`
with `standardized_inventory = {k.strip().lower(): v for k, v in
inventory.items()}` (get_craftable, lines 655-674). -/
def available_of (inventory : List (String × Nat))
    (idToName : Nat → Option String) (iid : Nat) : Nat :=
  dget (inventory.map (fun p => (lower_string (trim_string p.1), p.2)))
    (lower_string (input_name idToName iid)) 0

/-- The inner loop of `get_craftable` (lines 670-684): `max_craftable`
starts at `float('inf')` (modelled as `none`), an input with
`available < required` forces 0 and breaks, otherwise
`possible = available // required` lowers the running minimum. -/
def max_craftable (availOf : Nat → Nat) :
    List (Nat × Nat) → Option Nat → Option Nat
  | [], acc => acc
  | (iid, q) :: rest, acc =>
      let available := availOf iid
      if available < q then some 0
      else
        let possible := available / q
        let acc2 :=
          match acc with
          | none => some possible
          | some m => if possible < m then some possible else some m
        max_craftable availOf rest acc2

/-- A row of the craftable report (`Item ID` and `Max Craftable`; the
name and requirement strings are presentation only). -/
structure CraftableRow where
  itemId : Nat
  maxCraftable : Option Nat
  deriving DecidableEq

/-- `max_craftable > 0` in Python, where `float('inf') > 0` is true. -/
def mc_pos : Option Nat → Bool
  | none => true
  | some m => decide (0 < m)

/-- `get_craftable` (lines 633-699): for every recipe compute the maximal
craftable quantity against the inventory and keep the rows with a positive
maximum. -/
def get_craftable (recipes : List Recipe) (inventory : List (String × Nat))
    (idToName : Nat → Option String) : List CraftableRow :=
  recipes.filterMap (fun r =>
    let mc := max_craftable (available_of inventory idToName)
      (r.inputs.zip r.quantities) none
    if mc_pos mc then some ⟨r.output, mc⟩ else none)

theorem max_craftable_some (availOf : Nat → Nat) :
    ∀ (pairs : List (Nat × Nat)) (c : Nat),
      ∃ m, max_craftable availOf pairs (some c) = some m
        ∧ (m = c ∨ m ∈ pairs.map (fun p => availOf p.1 / p.2)) ∧ m ≤ c
        ∧ ∀ v ∈ pairs.map (fun p => availOf p.1 / p.2), m ≤ v := by
  intro pairs
  induction pairs with
  | nil => intro c; exact ⟨c, rfl, Or.inl rfl, le_rfl, by simp⟩
  | cons p rest ih =>
      intro c
      obtain ⟨iid, q⟩ := p
      by_cases hlow : availOf iid < q
      · refine ⟨0, ?_, ?_, by omega, ?_⟩
        · simp only [max_craftable, if_pos hlow]
        · exact Or.inr (by simp [Nat.div_eq_of_lt hlow])
        · intro v hv; omega
      · by_cases hlt : availOf iid / q < c
        · obtain ⟨m, hm, hmem, hle, hbd⟩ := ih (availOf iid / q)
          refine ⟨m, ?_, ?_, by omega, ?_⟩
          · simp only [max_craftable, if_neg hlow]
            rw [if_pos hlt]
            exact hm
          · rcases hmem with h | h
            · exact Or.inr (by simp [h])
            · exact Or.inr (List.mem_cons_of_mem _ h)
          · intro v hv
            rcases List.mem_cons.mp hv with hv | hv
            · have hb : v = availOf iid / q := by simpa using hv
              omega
            · exact hbd v hv
        · obtain ⟨m, hm, hmem, hle, hbd⟩ := ih c
          refine ⟨m, ?_, ?_, hle, ?_⟩
          · simp only [max_craftable, if_neg hlow]
            rw [if_neg hlt]
            exact hm
          · rcases hmem with h | h
            · exact Or.inl h
            · exact Or.inr (List.mem_cons_of_mem _ h)
          · intro v hv
            rcases List.mem_cons.mp hv with hv | hv
            · have hb : v = availOf iid / q := by simpa using hv
              omega
            · exact hbd v hv

/-- Inventory and catalog of the C4 examples:
`Table ← 2×Wood + 1×Stone`. -/
def table_recipe : Recipe := ⟨10, [1, 2], [2, 1]⟩

/-- Catalog names for the C4 examples. -/
def c4_idToName : Nat → Option String := fun i =>
  if i = 1 then some "Wood" else if i = 2 then some "Stone"
  else if i = 10 then some "Table" else none

/-! ## C4: the craftable maximum -/

/-- C4: `max_craftable` is absent (infinite) exactly for an empty input
list, and otherwise computes the minimum over the recipe's inputs of
`available / required` (so an input with zero availability forces an
immediate maximum of 0, as `0 / q = 0`); on the concrete examples,
inventory `{Wood: 4, Stone: 1}` reports Table with maximum 1 while
`{Wood: 4, Stone: 0}` excludes Table from the craftable view. -/
theorem c4_craftable (availOf : Nat → Nat) (pairs : List (Nat × Nat)) :
    (max_craftable availOf pairs none = none ↔ pairs = [])
    ∧ (∀ m, max_craftable availOf pairs none = some m →
        m ∈ pairs.map (fun p => availOf p.1 / p.2)
          ∧ ∀ v ∈ pairs.map (fun p => availOf p.1 / p.2), m ≤ v)
    ∧ (∀ p ∈ pairs, 1 ≤ p.2 → availOf p.1 = 0 →
        max_craftable availOf pairs none = some 0)
    ∧ (get_craftable [table_recipe] [("Wood", 4), ("Stone", 1)] c4_idToName
        = [⟨10, some 1⟩])
    ∧ (get_craftable [table_recipe] [("Wood", 4), ("Stone", 0)] c4_idToName
        = []) := by
  have hsome : ∀ m, max_craftable availOf pairs none = some m →
      m ∈ pairs.map (fun p => availOf p.1 / p.2)
        ∧ ∀ v ∈ pairs.map (fun p => availOf p.1 / p.2), m ≤ v := by
    cases pairs with
    | nil => intro m hm; cases hm
    | cons p rest =>
        intro m hm
        obtain ⟨iid, q⟩ := p
        by_cases hlow : availOf iid < q
        · simp only [max_craftable, if_pos hlow, Option.some.injEq] at hm
          subst hm
          constructor
          · refine List.mem_cons.mpr (Or.inl ?_)
            simpa using (Nat.div_eq_of_lt hlow).symm
          · intro v hv; omega
        · simp only [max_craftable, if_neg hlow] at hm
          obtain ⟨m2, hm2, hmem, hle, hbd⟩ :=
            max_craftable_some availOf rest (availOf iid / q)
          rw [hm2] at hm
          injection hm with hm
          subst hm
          constructor
          · rcases hmem with h | h
            · exact List.mem_cons.mpr (Or.inl (by simpa using h))
            · exact List.mem_cons_of_mem _ h
          · intro v hv
            rcases List.mem_cons.mp hv with hv | hv
            · have hb : v = availOf iid / q := by simpa using hv
              omega
            · exact hbd v hv
  refine ⟨?_, hsome, ?_, by decide, by decide⟩
  · cases pairs with
    | nil => simp [max_craftable]
    | cons p rest =>
        constructor
        · intro h
          obtain ⟨iid, q⟩ := p
          by_cases hlow : availOf iid < q
          · simp only [max_craftable, if_pos hlow] at h
            cases h
          · simp only [max_craftable, if_neg hlow] at h
            obtain ⟨m2, hm2, _, _, _⟩ :=
              max_craftable_some availOf rest (availOf iid / q)
            rw [hm2] at h
            cases h
        · intro h; cases h
  · intro p hp hq h0
    cases hmc : max_craftable availOf pairs none with
    | none =>
        have : pairs = [] := by
          cases pairs with
          | nil => rfl
          | cons p2 rest =>
              obtain ⟨iid, q⟩ := p2
              by_cases hlow : availOf iid < q
              · simp only [max_craftable, if_pos hlow] at hmc
                cases hmc
              · simp only [max_craftable, if_neg hlow] at hmc
                obtain ⟨m2, hm2, _, _, _⟩ :=
                  max_craftable_some availOf rest (availOf iid / q)
                rw [hm2] at hmc
                cases hmc
        rw [this] at hp
        exact absurd hp (List.not_mem_nil _)
    | some m =>
        obtain ⟨_, hbd⟩ := hsome m hmc
        have hv : availOf p.1 / p.2 ∈ pairs.map (fun p => availOf p.1 / p.2) :=
          List.mem_map_of_mem _ hp
        have := hbd _ hv
        rw [h0] at this
        simp only [Nat.zero_div] at this
        congr 1
        omega

/-- Witness for C4: with availability `Wood 4, Stone 1` and recipe inputs
`2×Wood, 1×Stone`, the maximum is `some 1`, the minimum of `4/2` and
`1/1`. -/
theorem c4_witness :
    1 ∈ [(1, 2), (2, 1)].map
        (fun p : Nat × Nat =>
          (fun i => if i = 1 then 4 else 1 : Nat → Nat) p.1 / p.2)
      ∧ ∀ v ∈ [(1, 2), (2, 1)].map
          (fun p : Nat × Nat =>
            (fun i => if i = 1 then 4 else 1 : Nat → Nat) p.1 / p.2),
          1 ≤ v :=
  (c4_craftable (fun i => if i = 1 then 4 else 1) [(1, 2), (2, 1)]).2.1 1
    (by decide)

/-! ## The selector table (`World._extract_all_errors`) -/

/-- One entry of a contract ABI, as far as error extraction is concerned:
its `type`, its `name`, and the types of its `inputs`. -/
structure AbiItem where
  itemType : String
  name : String
  inputTypes : List String
  deriving DecidableEq

/-- `signature = f"{item['name']}({','.join(inp['type'] ...)})"`
(World.py line 113). -/
def error_signature (item : AbiItem) : String :=
  item.name ++ "(" ++ String.intercalate "," item.inputTypes ++ ")"

/-- The inner loop of `_extract_all_errors` for one contract: every ABI
item of type "error" is keyed by the selector of its signature.  `keccak4`
models `w3.keccak(text=signature)[:4].hex()` (the external hash, first 4
bytes in hex).  Python dict assignment is modelled by appending, with
`table_lookup` taking the most recent binding. -/
def add_abi_errors (keccak4 : String → String) (cname : String)
    (errs : List (String × String × String)) (items : List AbiItem) :
    List (String × String × String) :=
  items.foldl (fun errs2 item =>
    if item.itemType = "error" then
      errs2 ++ [(keccak4 (error_signature item), cname, item.name)]
    else errs2) errs

/-- The outer loop of `_extract_all_errors`: ABIs that are not lists
(`isinstance(abi, list)` false, modelled by `none`) are skipped. -/
def add_contract_errors (keccak4 : String → String)
    (errs : List (String × String × String))
    (entry : String × Option (List AbiItem)) :
    List (String × String × String) :=
  match entry.2 with
  | none => errs
  | some items => add_abi_errors keccak4 entry.1 errs items

/-- `World._extract_all_errors` (World.py lines 105-116): the selector
table over all loaded contract ABIs, built once. -/
def extract_all_errors (keccak4 : String → String)
    (abis : List (String × Option (List AbiItem))) :
    List (String × String × String) :=
  abis.foldl (add_contract_errors keccak4) []

theorem table_lookup_append (l l2 : List (String × String × String))
    (sel : String) :
    table_lookup (l ++ l2) sel
      = match table_lookup l2 sel with
        | some v => some v
        | none => table_lookup l sel := by
  simp only [table_lookup, List.reverse_append, List.find?_append]
  cases h : List.find? (fun e => e.1 == sel) l2.reverse with
  | none => simp [Option.orElse, h]
  | some v => simp [Option.orElse, h]

theorem table_lookup_snoc_self (l : List (String × String × String))
    (k a b : String) :
    table_lookup (l ++ [(k, a, b)]) k = some (a, b) := by
  simp [table_lookup, List.reverse_append, List.find?_cons]

theorem table_lookup_mono (l l2 : List (String × String × String))
    (k : String) (h : ∃ v, table_lookup l k = some v) :
    ∃ v, table_lookup (l ++ l2) k = some v := by
  obtain ⟨v, hv⟩ := h
  rw [table_lookup_append]
  cases h2 : table_lookup l2 k with
  | none => exact ⟨v, by simp [hv]⟩
  | some w => exact ⟨w, by simp⟩

theorem add_abi_errors_mono (keccak4 : String → String) (cname : String) :
    ∀ (items : List AbiItem) (errs : List (String × String × String))
      (k : String), (∃ v, table_lookup errs k = some v) →
        ∃ v, table_lookup (add_abi_errors keccak4 cname errs items) k = some v := by
  intro items
  induction items with
  | nil => intro errs k h; exact h
  | cons item rest ih =>
      intro errs k h
      simp only [add_abi_errors, List.foldl_cons]
      by_cases htype : item.itemType = "error"
      · rw [if_pos htype]
        exact ih _ k (table_lookup_mono errs _ k h)
      · rw [if_neg htype]
        exact ih errs k h

theorem add_abi_errors_covers (keccak4 : String → String) (cname : String) :
    ∀ (items : List AbiItem) (errs : List (String × String × String))
      (item : AbiItem), item ∈ items → item.itemType = "error" →
        ∃ v, table_lookup (add_abi_errors keccak4 cname errs items)
            (keccak4 (error_signature item)) = some v := by
  intro items
  induction items with
  | nil => intro errs item h; exact absurd h (List.not_mem_nil _)
  | cons it rest ih =>
      intro errs item hmem htype
      simp only [add_abi_errors, List.foldl_cons]
      rcases List.mem_cons.mp hmem with h | h
      · subst h
        rw [if_pos htype]
        refine add_abi_errors_mono keccak4 cname rest _ _ ?_
        exact ⟨(cname, item.name),
          table_lookup_snoc_self errs _ cname item.name⟩
      · by_cases ht2 : it.itemType = "error"
        · rw [if_pos ht2]
          exact ih _ item h htype
        · rw [if_neg ht2]
          exact ih errs item h htype

theorem extract_go_mono (keccak4 : String → String) :
    ∀ (abis : List (String × Option (List AbiItem)))
      (errs : List (String × String × String)) (k : String),
      (∃ v, table_lookup errs k = some v) →
        ∃ v, table_lookup (abis.foldl (add_contract_errors keccak4) errs) k
          = some v := by
  intro abis
  induction abis with
  | nil => intro errs k h; exact h
  | cons entry rest ih =>
      intro errs k h
      simp only [List.foldl_cons]
      cases he : entry.2 with
      | none =>
          have : add_contract_errors keccak4 errs entry = errs := by
            simp [add_contract_errors, he]
          rw [this]
          exact ih errs k h
      | some items =>
          have : add_contract_errors keccak4 errs entry
              = add_abi_errors keccak4 entry.1 errs items := by
            simp [add_contract_errors, he]
          rw [this]
          exact ih _ k (add_abi_errors_mono keccak4 entry.1 items errs k h)

theorem extract_go_covers (keccak4 : String → String) :
    ∀ (abis : List (String × Option (List AbiItem)))
      (errs : List (String × String × String))
      (entry : String × Option (List AbiItem)), entry ∈ abis →
      ∀ items, entry.2 = some items →
      ∀ item ∈ items, item.itemType = "error" →
        ∃ v, table_lookup (abis.foldl (add_contract_errors keccak4) errs)
            (keccak4 (error_signature item)) = some v := by
  intro abis
  induction abis with
  | nil => intro errs entry h; exact absurd h (List.not_mem_nil _)
  | cons e rest ih =>
      intro errs entry hmem items hitems item hitem htype
      simp only [List.foldl_cons]
      rcases List.mem_cons.mp hmem with h | h
      · subst h
        have : add_contract_errors keccak4 errs entry
            = add_abi_errors keccak4 entry.1 errs items := by
          simp [add_contract_errors, hitems]
        rw [this]
        exact extract_go_mono keccak4 rest _ _
          (add_abi_errors_covers keccak4 entry.1 items errs item hitem htype)
      · exact ih _ entry h items hitems item hitem htype

/-! ## C7: failure decoding through the selector table -/

/-- C7: the selector table built once from all loaded contract ABIs has an
entry for every contract-defined error, keyed by the selector of the
error's signature; on submission failure a matched selector raises the
structured error carrying the error's human-readable name, an unmatched
selector raises the unknown-custom-error message carrying the raw payload,
and any other failure raises "Transaction failed" with the underlying
message. -/
theorem c7_error_decoding (keccak4 : String → String)
    (abis : List (String × Option (List AbiItem))) :
    (∀ entry ∈ abis, ∀ items, entry.2 = some items →
        ∀ item ∈ items, item.itemType = "error" →
          ∃ v, table_lookup (extract_all_errors keccak4 abis)
              (keccak4 (error_signature item)) = some v)
    ∧ (∀ (errs : List (String × String × String)) (data cname ename : String),
        table_lookup errs (error_selector data) = some (cname, ename) →
          execute_function_call errs (.customError data)
            = .error ("Transaction failed with custom error: " ++ ename))
    ∧ (∀ (errs : List (String × String × String)) (data : String),
        table_lookup errs (error_selector data) = none →
          execute_function_call errs (.customError data)
            = .error ("Transaction failed with unknown custom error: " ++ data))
    ∧ (∀ (errs : List (String × String × String)) (msg : String),
        execute_function_call errs (.failure msg)
          = .error ("Transaction failed: " ++ msg)) := by
  refine ⟨?_, ?_, ?_, ?_⟩
  · intro entry hmem items hitems item hitem htype
    exact extract_go_covers keccak4 abis [] entry hmem items hitems item hitem htype
  · intro errs data cname ename h
    simp [execute_function_call, h]
  · intro errs data h
    simp [execute_function_call, h]
  · intro errs msg
    rfl

/-- ABIs for the C7 witness: one crafting contract defining one error, and
one non-list ABI that is skipped. -/
def c7_abis : List (String × Option (List AbiItem)) :=
  [("CraftingSystem", some [⟨"error", "NotEnoughIngredients", ["uint256"]⟩]),
    ("Broken", none)]

/-- Hash model for the C7 witness (the first characters of the
signature stand in for the keccak selector). -/
def c7_keccak : String → String := fun s => s.take 8

/-- Witness for C7: the table built from `c7_abis` resolves the selector of
`NotEnoughIngredients(uint256)`, and the three decoding branches produce
their respective messages on concrete inputs. -/
theorem c7_witness :
    (∃ v, table_lookup (extract_all_errors c7_keccak c7_abis)
        (c7_keccak (error_signature ⟨"error", "NotEnoughIngredients", ["uint256"]⟩))
        = some v)
    ∧ (execute_function_call [("deadbeef", "C", "E")] (.customError "0xdeadbeef")
        = .error "Transaction failed with custom error: E")
    ∧ (execute_function_call [] (.customError "0xdeadbeef")
        = .error "Transaction failed with unknown custom error: 0xdeadbeef")
    ∧ (execute_function_call [] (.failure "timeout")
        = .error "Transaction failed: timeout") :=
  ⟨(c7_error_decoding c7_keccak c7_abis).1 _ (List.mem_cons_self _ _) _ rfl _
      (List.mem_cons_self _ _) rfl,
    (c7_error_decoding c7_keccak c7_abis).2.1 [("deadbeef", "C", "E")]
      "0xdeadbeef" "C" "E" (by decide),
    (c7_error_decoding c7_keccak c7_abis).2.2.1 [] "0xdeadbeef" (by decide),
    (c7_error_decoding c7_keccak c7_abis).2.2.2 [] "timeout"⟩

end MudPy
